import Mathlib

/-!
# Verification of the PyAlgoMate Finvasia live-feed core

Shallow embedding of the tick ingestion, quote merge, publish/subscribe
aggregation, bar synthesis, liveness check and nearest-premium search of
`pyalgomate/brokers/finvasia/wsclient.py` and
`pyalgomate/brokers/finvasia/feed.py`.

Modelling conventions:
* Python dicts keyed by `"exchange|token"` strings become association lists
  `List (String × β)` with insertion-order preserving upsert (mirroring
  CPython dict semantics: updating an existing key keeps its position,
  a fresh key is appended).
* Broker numeric fields (`lp`, `v`, `oi`) travel as strings and are converted
  with `float(...)`; they are modelled as `ℚ`.  Datetimes are modelled as
  whole seconds (`Int`): the code only ever stores second-truncated datetimes
  (`datetime.fromtimestamp(int(..))` / `replace(microsecond=0)`).
* A field absent from a tick dict is `none`; `dict.update` merge semantics
  (present fields overwrite, absent fields are retained) is the `ovr`
  combinator below.
-/

namespace PyAlgoMate

/-- Field-wise dict-update semantics: a field present in the incoming update
overwrites, an absent one keeps the stored value. -/
def ovr {α : Type} : Option α → Option α → Option α
  | some x, _ => some x
  | none, old => old

@[simp] theorem ovr_some {α : Type} (x : α) (o : Option α) : ovr (some x) o = some x := rfl

@[simp] theorem ovr_none {α : Type} (o : Option α) : ovr none o = o := rfl

theorem ovr_idem {α : Type} (a b : Option α) : ovr a (ovr a b) = ovr a b := by
  cases a <;> rfl

/-! ## Association lists (Python dict model) -/

/-- `d[k]` lookup: first entry with the key. -/
def alookup {β : Type} (k : String) : List (String × β) → Option β
  | [] => none
  | (k', v) :: rest => if k' = k then some v else alookup k rest

/-- `d.get(k, dflt)`. -/
def alookupD {β : Type} (k : String) (l : List (String × β)) (dflt : β) : β :=
  (alookup k l).getD dflt

/-- `d[k] = v`: replace the entry in place when the key exists, append otherwise
(CPython dict insertion-order semantics). -/
def aupsert {β : Type} (k : String) (v : β) : List (String × β) → List (String × β)
  | [] => [(k, v)]
  | (k', v') :: rest => if k' = k then (k, v) :: rest else (k', v') :: aupsert k v rest

@[simp] theorem alookup_nil {β : Type} (k : String) :
    alookup k ([] : List (String × β)) = none := rfl

theorem alookup_cons {β : Type} (k k' : String) (v : β) (l : List (String × β)) :
    alookup k ((k', v) :: l) = if k' = k then some v else alookup k l := rfl

@[simp] theorem aupsert_nil {β : Type} (k : String) (v : β) :
    aupsert k v ([] : List (String × β)) = [(k, v)] := rfl

theorem aupsert_cons {β : Type} (k k' : String) (v v' : β) (l : List (String × β)) :
    aupsert k v ((k', v') :: l) =
      if k' = k then (k, v) :: l else (k', v') :: aupsert k v l := rfl

theorem alookup_aupsert_self {β : Type} (k : String) (v : β) (l : List (String × β)) :
    alookup k (aupsert k v l) = some v := by
  induction l with
  | nil => simp [alookup]
  | cons p rest ih =>
    obtain ⟨k', v'⟩ := p
    by_cases h : k' = k
    · simp [aupsert_cons, alookup_cons, h]
    · simp [aupsert_cons, alookup_cons, h, ih]

theorem alookup_aupsert_other {β : Type} (k k' : String) (v : β) (l : List (String × β))
    (h : k' ≠ k) : alookup k' (aupsert k v l) = alookup k' l := by
  have hk : k ≠ k' := Ne.symm h
  induction l with
  | nil => simp [alookup_cons, hk]
  | cons p rest ih =>
    obtain ⟨k₀, v₀⟩ := p
    by_cases h₀ : k₀ = k
    · subst h₀
      simp [aupsert_cons, alookup_cons, hk]
    · simp [aupsert_cons, alookup_cons, h₀, ih]

theorem mem_of_alookup_eq_some {β : Type} {k : String} {v : β} {l : List (String × β)}
    (h : alookup k l = some v) : (k, v) ∈ l := by
  induction l with
  | nil => simp [alookup] at h
  | cons p rest ih =>
    obtain ⟨k₀, v₀⟩ := p
    by_cases h₀ : k₀ = k
    · subst h₀
      rw [alookup_cons, if_pos rfl] at h
      injection h with h
      subst h
      exact List.mem_cons_self _ _
    · rw [alookup_cons, if_neg h₀] at h
      exact List.mem_cons_of_mem _ (ih h)

theorem mem_aupsert {β : Type} {p : String × β} {k : String} {v : β} {l : List (String × β)}
    (h : p ∈ aupsert k v l) : p = (k, v) ∨ p ∈ l := by
  induction l with
  | nil => simpa using h
  | cons q rest ih =>
    obtain ⟨k₀, v₀⟩ := q
    by_cases h₀ : k₀ = k
    · rw [aupsert_cons, if_pos h₀] at h
      rcases List.mem_cons.mp h with h | h
      · exact Or.inl h
      · exact Or.inr (List.mem_cons_of_mem _ h)
    · rw [aupsert_cons, if_neg h₀] at h
      rcases List.mem_cons.mp h with h | h
      · exact Or.inr (h ▸ List.mem_cons_self _ _)
      · rcases ih h with h' | h'
        · exact Or.inl h'
        · exact Or.inr (List.mem_cons_of_mem _ h')

/-- Keys of an association list. -/
def akeys {β : Type} (l : List (String × β)) : List String := l.map Prod.fst

@[simp] theorem akeys_nil {β : Type} : akeys ([] : List (String × β)) = [] := rfl

@[simp] theorem akeys_cons {β : Type} (p : String × β) (l : List (String × β)) :
    akeys (p :: l) = p.1 :: akeys l := rfl

theorem akeys_aupsert_mem {β : Type} (k : String) (v : β) (l : List (String × β)) :
    ∀ k', k' ∈ akeys (aupsert k v l) ↔ (k' = k ∨ k' ∈ akeys l) := by
  intro k'
  induction l with
  | nil => simp
  | cons p rest ih =>
    obtain ⟨k₀, v₀⟩ := p
    by_cases h₀ : k₀ = k
    · subst h₀
      rw [aupsert_cons, if_pos rfl]
      simp
    · rw [aupsert_cons, if_neg h₀]
      simp only [akeys_cons, List.mem_cons]
      rw [ih]
      tauto

theorem akeys_aupsert_nodup {β : Type} (k : String) (v : β) (l : List (String × β))
    (h : (akeys l).Nodup) : (akeys (aupsert k v l)).Nodup := by
  induction l with
  | nil => simp
  | cons p rest ih =>
    obtain ⟨k₀, v₀⟩ := p
    rw [akeys_cons, List.nodup_cons] at h
    by_cases h₀ : k₀ = k
    · subst h₀
      rw [aupsert_cons, if_pos rfl]
      rw [akeys_cons, List.nodup_cons]
      exact h
    · rw [aupsert_cons, if_neg h₀]
      rw [akeys_cons, List.nodup_cons]
      refine ⟨fun hmem => ?_, ih h.2⟩
      rcases (akeys_aupsert_mem k v rest k₀).mp hmem with h' | h'
      · exact h₀ h'
      · exact h.1 h'

theorem alookup_eq_of_mem_nodup {β : Type} {k : String} {v : β} {l : List (String × β)}
    (hnd : (akeys l).Nodup) (hmem : (k, v) ∈ l) : alookup k l = some v := by
  induction l with
  | nil => simp at hmem
  | cons p rest ih =>
    obtain ⟨k₀, v₀⟩ := p
    rw [akeys_cons, List.nodup_cons] at hnd
    rcases List.mem_cons.mp hmem with h | h
    · rw [Prod.ext_iff] at h
      obtain ⟨h1, h2⟩ := h
      rw [alookup_cons, if_pos h1.symm]
      exact congrArg some h2.symm
    · have hk : k₀ ≠ k := by
        rintro rfl
        exact hnd.1 (by simpa [akeys] using List.mem_map_of_mem Prod.fst h)
      rw [alookup_cons, if_neg hk]
      exact ih hnd.2 h

/-- If an entry is present and every entry sharing its key carries the same
value, lookup returns that value. -/
theorem alookup_of_unique {β : Type} {k : String} {v : β} {l : List (String × β)}
    (hmem : (k, v) ∈ l) (huniq : ∀ p ∈ l, p.1 = k → p.2 = v) : alookup k l = some v := by
  induction l with
  | nil => simp at hmem
  | cons p rest ih =>
    obtain ⟨k₀, v₀⟩ := p
    by_cases h₀ : k₀ = k
    · have hv : v₀ = v := huniq (k₀, v₀) (List.mem_cons_self _ _) h₀
      rw [alookup_cons, if_pos h₀, hv]
    · rw [alookup_cons, if_neg h₀]
      rcases List.mem_cons.mp hmem with h | h
      · rw [Prod.ext_iff] at h
        exact absurd h.1.symm h₀
      · exact ih h (fun p hp => huniq p (List.mem_cons_of_mem _ hp))

/-! ## Publisher: `wsclient.py`, class `WebSocketClient`

`onQuoteUpdate` (wsclient.py lines 165-203): keyed by `message["e"] + "|" +
message["tk"]`, records the receipt time, resolves the quote time from the
tick's `ft` epoch field (else the truncated receipt time), dict-merges the
tick into the cache, and derives `volume` as `float(v) - float(previousVolume)`
when the tick carries `v`, else `0`.  `previousVolume` is the previously
stored cumulative `v` for the key, `0` when absent. -/

/-- A raw broker tick (`message` dict).  `e` and `tk` are always present;
the numeric fields may be absent. `ft` is the exchange epoch timestamp. -/
structure RawTick where
  e : String
  tk : String
  lp : Option ℚ
  v : Option ℚ
  oi : Option ℚ
  ft : Option Int
  deriving Repr, DecidableEq

/-- Cache key `message["e"] + "|" + message["tk"]`. -/
def RawTick.key (m : RawTick) : String := m.e ++ "|" ++ m.tk

/-- A merged per-instrument cache entry: the tick fields plus the always-set
`ft` (resolved quote datetime), `ct` (receipt datetime) and derived `volume`. -/
structure QuoteRecord where
  e : String
  tk : String
  lp : Option ℚ
  v : Option ℚ
  oi : Option ℚ
  ft : Int
  ct : Int
  volume : ℚ
  deriving Repr, DecidableEq

/-- Cache key of a stored record. -/
def QuoteRecord.key (r : QuoteRecord) : String := r.e ++ "|" ++ r.tk

/-- Publisher-side state: `self.__quotes`, `self.__lastQuoteDateTime`,
`self.__lastReceivedDateTime`. -/
structure WSClientState where
  quotes : List (String × QuoteRecord)
  lastQuoteDateTime : Option Int
  lastReceivedDateTime : Option Int
  deriving Repr, DecidableEq

/-- Fresh `WebSocketClient` state (constructor, wsclient.py lines 70-72). -/
def initialWSClient : WSClientState :=
  { quotes := [], lastQuoteDateTime := none, lastReceivedDateTime := none }

/-- `previousVolume = self.__quotes[key]["v"] if key in self.__quotes and "v"
in self.__quotes[key] else 0`. -/
def prevCumVolume (s : WSClientState) (key : String) : ℚ :=
  match alookup key s.quotes with
  | some r => r.v.getD 0
  | none => 0

/-- Quote-time resolution: `datetime.fromtimestamp(int(message["ft"]))` when
`ft` is present, else the receipt time truncated to the second. -/
def resolveFt (m : RawTick) (now : Int) : Int := m.ft.getD now

/-- `symbolInfo.update(message)`: fields present in the tick overwrite, absent
ones retain the stored value; `ft`/`ct` were set on the message beforehand so
they always overwrite; the stored `volume` is untouched by the dict update
(it is reassigned afterwards). -/
def mergeTick (r : QuoteRecord) (m : RawTick) (ct ft : Int) : QuoteRecord :=
  { e := m.e, tk := m.tk,
    lp := ovr m.lp r.lp, v := ovr m.v r.v, oi := ovr m.oi r.oi,
    ft := ft, ct := ct, volume := r.volume }

/-- First tick for a key: the message itself (with `ft`/`ct` set) is stored. -/
def freshRecord (m : RawTick) (ct ft : Int) : QuoteRecord :=
  { e := m.e, tk := m.tk, lp := m.lp, v := m.v, oi := m.oi,
    ft := ft, ct := ct, volume := 0 }

/-- The record stored for `m.key` by one `onQuoteUpdate` call: dict merge
followed by the `volume` derivation (`float(message["v"]) - float(previousVolume)`
when `v` is present, else `0`). -/
def mergedRecord (s : WSClientState) (m : RawTick) (now : Int) : QuoteRecord :=
  let ft := resolveFt m now
  let base :=
    match alookup m.key s.quotes with
    | some r => mergeTick r m now ft
    | none => freshRecord m now ft
  { base with
    volume :=
      match m.v with
      | some v => v - prevCumVolume s m.key
      | none => 0 }

/-- `WebSocketClient.onQuoteUpdate` (wsclient.py lines 165-203), with the wall
clock passed explicitly (`now = datetime.datetime.now()`, in whole seconds). -/
def onQuoteUpdate (s : WSClientState) (m : RawTick) (now : Int) : WSClientState :=
  { quotes := aupsert m.key (mergedRecord s m now) s.quotes,
    lastQuoteDateTime := some (resolveFt m now),
    lastReceivedDateTime := some now }

theorem alookup_onQuoteUpdate_self (s : WSClientState) (m : RawTick) (now : Int) :
    alookup m.key (onQuoteUpdate s m now).quotes = some (mergedRecord s m now) :=
  alookup_aupsert_self _ _ _

/-! ## Subscriber / aggregator: `feed.py`, class `LiveTradeFeed`

The receive loop (`__async_main`, feed.py lines 230-251) consumes published
records (the publisher broadcasts its full merged cache entry, so an incoming
message has the shape of a `QuoteRecord`).  The tokenId→instrument dict
`self.__tokenIdToInstrumentMappings` is modelled as a total function
`String → String` (the code indexes it without a default). -/

/-- Aggregator state: `self.__latestQuotes`, `self.__latestOIs`,
`self.__lastQuoteDateTime`, `self.__lastReceivedDateTime`,
`self.__lastUpdateTime`, `self.__nextBarsTime`. -/
structure FeedState where
  latestQuotes : List (String × QuoteRecord)
  latestOIs : List (String × ℚ)
  lastQuoteDateTime : Option Int
  lastReceivedDateTime : Option Int
  lastUpdateTime : Option Int
  nextBarsTime : Option Int
  deriving Repr, DecidableEq

/-- Fresh `LiveTradeFeed` state (constructor, feed.py lines 163-190). -/
def initialFeed : FeedState :=
  { latestQuotes := [], latestOIs := [], lastQuoteDateTime := none,
    lastReceivedDateTime := none, lastUpdateTime := none, nextBarsTime := none }

/-- `symbolInfo.update(message)` on the aggregator cache: the incoming payload
is a full published record, so every always-present field (`e`, `tk`, `ft`,
`ct`, `volume`) overwrites and the optional fields overwrite when present. -/
def mergeRecord (r m : QuoteRecord) : QuoteRecord :=
  { e := m.e, tk := m.tk,
    lp := ovr m.lp r.lp, v := ovr m.v r.v, oi := ovr m.oi r.oi,
    ft := m.ft, ct := m.ct, volume := m.volume }

/-- The record the receive loop stores for `m.key`: the dict merge into the
existing entry, or the message itself for a fresh key. -/
def mergedFeedRecord (s : FeedState) (m : QuoteRecord) : QuoteRecord :=
  match alookup m.key s.latestQuotes with
  | some r => mergeRecord r m
  | none => m

/-- One iteration of `LiveTradeFeed.__async_main` (feed.py lines 230-251) on
an available message: drop it when `float(message.get("lp", 0)) <= 0`,
otherwise merge into `self.__latestQuotes`, record `oi` into
`self.__latestOIs` when present, and update the two clocks. -/
def processMessage (s : FeedState) (m : QuoteRecord) (now : Int) : FeedState :=
  if m.lp.getD 0 ≤ 0 then s
  else
    { s with
      latestQuotes := aupsert m.key (mergedFeedRecord s m) s.latestQuotes,
      latestOIs :=
        match m.oi with
        | some x => aupsert m.key x s.latestOIs
        | none => s.latestOIs,
      lastQuoteDateTime := some m.ft,
      lastReceivedDateTime := some now }

/-! ### Bar synthesis (`QuoteMessage.getBar` and `LiveTradeFeed.getNextBars`) -/

/-- `instrument.split('|')[1]` applied to the mapped instrument id:
`QuoteMessage.instrument` rebuilds `f"{exchange}|{mapped.split('|')[1]}"`. -/
def secondPart (s : String) : String := (s.splitOn "|").getD 1 ""

/-- `QuoteMessage.instrument` for a stored record, given the
tokenId→instrument dict. -/
def instrumentOfRecord (mapping : String → String) (r : QuoteRecord) : String :=
  r.e ++ "|" ++ secondPart (mapping (r.e ++ "|" ++ r.tk))

/-- A synthesized tick bar (`BasicBarEx`): OHLC all equal to the last price,
volume from the derived incremental volume, plus instrument and open
interest metadata. -/
structure Bar where
  dateTime : Int
  openPrice : ℚ
  highPrice : ℚ
  lowPrice : ℚ
  closePrice : ℚ
  volume : ℚ
  openInterest : ℚ
  instrument : String
  deriving Repr, DecidableEq

/-- The `getBar` closure's fallback fill (feed.py lines 255-258):
`if not message.get("oi", None): message["oi"] = self.__latestOIs.get(key, 0)`.
With numeric fields, falsy means absent or zero. -/
def fillOI (s : FeedState) (r : QuoteRecord) : QuoteRecord :=
  if r.oi.getD 0 = 0 then { r with oi := some (alookupD r.key s.latestOIs 0) } else r

/-- `QuoteMessage.getBar(dateTime)` on a (filled) record: OHLC = `lp`,
volume = the stored derived `volume`, open interest = `float(oi or 0)`. -/
def mkBar (mapping : String → String) (r : QuoteRecord) (dt : Int) : Bar :=
  { dateTime := dt,
    openPrice := r.lp.getD 0, highPrice := r.lp.getD 0,
    lowPrice := r.lp.getD 0, closePrice := r.lp.getD 0,
    volume := r.volume, openInterest := r.oi.getD 0,
    instrument := instrumentOfRecord mapping r }

/-- The bars dict comprehension `{instrument: bar for ...}`: successive
insertions into a fresh dict, later duplicates overwriting earlier ones. -/
def dictOf {β : Type} (ps : List (String × β)) : List (String × β) :=
  ps.foldl (fun acc p => aupsert p.1 p.2 acc) []

/-- `LiveTradeFeed.getNextBars` (feed.py lines 253-277): produce a batch only
when `self.__lastUpdateTime != lastQuoteDateTime`; the batch holds one bar per
cache entry, with the falsy-`oi` fallback fill mutating the cached dicts. -/
def getNextBars (mapping : String → String) (s : FeedState) (now : Int) :
    FeedState × Option (List (String × Bar)) :=
  if s.lastUpdateTime = s.lastQuoteDateTime then (s, none)
  else
    let filled := s.latestQuotes.map (fun kv => (kv.1, fillOI s kv.2))
    let bars := dictOf (filled.map
      (fun kv => (instrumentOfRecord mapping kv.2, mkBar mapping kv.2 now)))
    ({ s with latestQuotes := filled,
              lastUpdateTime := s.lastQuoteDateTime,
              nextBarsTime := some now },
     some bars)

/-- `LiveTradeFeed.isDataFeedAlive` (feed.py lines 320-326). -/
def isDataFeedAlive (s : FeedState) (now : Int) (heartBeatInterval : Int) : Bool :=
  match s.lastQuoteDateTime with
  | none => false
  | some t => decide (now - t ≤ heartBeatInterval)

/-! ### Nearest-premium search (`LiveTradeFeed.findNearestPremiumOption`,
feed.py lines 328-360)

`getOptionContract` is the external option-contract resolver (spec §6); it is
a parameter returning the contract's expiry and type (`"c"`/`"p"`), or `none`
for a non-option. -/

/-- `pyalgomate.core.OptionType`. -/
inductive OptionType where
  | CALL
  | PUT
  deriving Repr, DecidableEq

/-- The option-contract metadata the search consults: `optionContract.expiry`
and `optionContract.type`. -/
structure OptionContract where
  expiry : Int
  type : String
  deriving Repr, DecidableEq

/-- `"c" if optionType == OptionType.CALL else "p"`. -/
def optionTypeCode (ot : OptionType) : String :=
  if ot = OptionType.CALL then "c" else "p"

/-- One loop iteration of the scan: skip non-options and filter mismatches,
otherwise keep the entry when its `|close - premium|` strictly improves the
running minimum (`minDifference` starts at infinity, so the first survivor is
always kept). -/
def nearestStep (resolver : String → Option OptionContract)
    (mapping : String → String) (expiry : Int) (ot : OptionType) (premium : ℚ)
    (best : Option (String × ℚ)) (kv : String × QuoteRecord) :
    Option (String × ℚ) :=
  let instrument := mapping kv.1
  match resolver instrument with
  | none => best
  | some oc =>
    if oc.expiry = expiry ∧ oc.type = optionTypeCode ot then
      let close := (kv.2).lp.getD 0
      match best with
      | none => some (instrument, close)
      | some (j, q) =>
        if |close - premium| < |q - premium| then some (instrument, close)
        else some (j, q)
    else best

/-- `LiveTradeFeed.findNearestPremiumOption` (feed.py lines 328-360): scan the
whole quote cache and return `(nearestOption, nearestPremium)`, both `None`
when nothing matched.  The `time` argument is accepted and unused, as in the
source. -/
def findNearestPremiumOption (resolver : String → Option OptionContract)
    (mapping : String → String) (s : FeedState) (expiry : Int)
    (optionType : OptionType) (premium : ℚ) (time : Int) :
    Option String × Option ℚ :=
  match s.latestQuotes.foldl
      (nearestStep resolver mapping expiry optionType premium) none with
  | none => (none, none)
  | some (i, p) => (some i, some p)

/-- The entries of the cache that pass the option filters, in iteration order,
with the price the loop reads for each. -/
def survivors (resolver : String → Option OptionContract)
    (mapping : String → String) (expiry : Int) (ot : OptionType)
    (quotes : List (String × QuoteRecord)) : List (String × ℚ) :=
  quotes.filterMap (fun kv =>
    let instrument := mapping kv.1
    match resolver instrument with
    | none => none
    | some oc =>
      if oc.expiry = expiry ∧ oc.type = optionTypeCode ot then
        some (instrument, (kv.2).lp.getD 0)
      else none)

/-- The min-tracking loop restricted to the surviving entries. -/
def nearestLoop (premium : ℚ) :
    Option (String × ℚ) → List (String × ℚ) → Option (String × ℚ)
  | best, [] => best
  | best, (i, p) :: rest =>
    match best with
    | none => nearestLoop premium (some (i, p)) rest
    | some (j, q) =>
      if |p - premium| < |q - premium| then nearestLoop premium (some (i, p)) rest
      else nearestLoop premium (some (j, q)) rest

/-! ### `WebSocketClient.waitInitialized` (wsclient.py lines 120-141)

Timing model: wall-clock seconds.  `openDelay = some w` means the connection
ready event (`self.__connectionOpened`) fires `w` seconds after the call,
`none` means it never fires; `threading.Event.wait(timeout)` hence succeeds
iff `w ≤ timeout`.  `keysAt t` is the publisher's quote-cache key set at
second `t`; the `for _ in range(timeout)` loop checks the pending set at one
second intervals starting when the event fired. -/

/-- The `for _ in range(n)` polling loop, checking at seconds `t, t+1, ...`:
returns success as soon as every pending subscription has a quote. -/
def wsPollLoop (keysAt : Nat → List String) (pending : List String) :
    Nat → Nat → Bool
  | _, 0 => false
  | t, n + 1 =>
    if pending.all (fun p => (keysAt t).contains p) then true
    else wsPollLoop keysAt pending (t + 1) n

/-- `WebSocketClient.waitInitialized(timeout)`: fail when the ready event does
not fire within `timeout`; else run the 1-second polling loop for `timeout`
iterations, clearing the pending set on success. -/
def waitInitialized (timeout : Nat) (openDelay : Option Nat)
    (keysAt : Nat → List String) (pending : List String) : Bool × List String :=
  match openDelay with
  | none => (false, pending)
  | some w =>
    if timeout < w then (false, pending)
    else if wsPollLoop keysAt pending w timeout then (true, [])
    else (false, pending)

/-- Modelled from the spec (§4.3 `waitInitialized`): the variant the claim
describes, whose polling phase is bounded by the *remaining* timeout budget
(`timeout - w` iterations) instead of a fresh `timeout` iterations.  Used only
to witness the divergence from the code. -/
def waitInitializedBudget (timeout : Nat) (openDelay : Option Nat)
    (keysAt : Nat → List String) (pending : List String) : Bool × List String :=
  match openDelay with
  | none => (false, pending)
  | some w =>
    if timeout < w then (false, pending)
    else if wsPollLoop keysAt pending w (timeout - w) then (true, [])
    else (false, pending)

/-! ### `LiveTradeFeed.__init__` construction validation (feed.py lines 133-156)

`self.__instrumentToTokenIdMapping = {instrument: tokenMappings[instrument]
for instrument in self.__instruments if instrument in tokenMappings}`, then
`raise` iff `len(self.__instruments) != len(self.__instrumentToTokenIdMapping)`. -/

/-- The instrument→tokenId dict comprehension. -/
def buildInstrumentToToken (tokenMappings : List (String × String))
    (instruments : List String) : List (String × String) :=
  instruments.foldl
    (fun acc i =>
      match alookup i tokenMappings with
      | some t => aupsert i t acc
      | none => acc)
    []

/-- `LiveTradeFeed.__init__` succeeds (does not raise the missing-token
exception) iff the instrument count matches the built dict's size. -/
def liveTradeFeedInitOk (tokenMappings : List (String × String))
    (instruments : List String) : Bool :=
  instruments.length = (buildInstrumentToToken tokenMappings instruments).length

/-! ## Claims -/

/-- C10: `findNearestPremiumOption` ignores its `time` parameter: for every
cache state, resolver, mapping, expiry, option type and premium, the result is
identical for any two time arguments. -/
theorem c10_nearest_time_independent (resolver : String → Option OptionContract)
    (mapping : String → String) (s : FeedState) (expiry : Int)
    (optionType : OptionType) (premium : ℚ) (t1 t2 : Int) :
    findNearestPremiumOption resolver mapping s expiry optionType premium t1 =
      findNearestPremiumOption resolver mapping s expiry optionType premium t2 := rfl

/-- C8: `isDataFeedAlive(threshold)` returns false when no quote was ever
received; otherwise it returns true iff the elapsed time `now - lastQuoteTime`
is at most the threshold. -/
theorem c8_isDataFeedAlive_spec (s : FeedState) (now threshold : Int) :
    (s.lastQuoteDateTime = none → isDataFeedAlive s now threshold = false) ∧
    (∀ t, s.lastQuoteDateTime = some t →
      (isDataFeedAlive s now threshold = true ↔ now - t ≤ threshold)) := by
  constructor
  · intro h
    simp [isDataFeedAlive, h]
  · intro t h
    simp [isDataFeedAlive, h]

/-- Witness for C8: alive 3 s after a quote with threshold 5, dead before any
quote. -/
theorem c8_isDataFeedAlive_witness :
    isDataFeedAlive { initialFeed with lastQuoteDateTime := some 0 } 3 5 = true ∧
    isDataFeedAlive initialFeed 3 5 = false :=
  ⟨((c8_isDataFeedAlive_spec { initialFeed with lastQuoteDateTime := some 0 } 3 5).2
      0 rfl).mpr (by decide),
   (c8_isDataFeedAlive_spec initialFeed 3 5).1 rfl⟩

/-- C2: a tick whose `lp` is absent or `≤ 0` is dropped by the receive loop:
the whole aggregator state (quote cache, OI fallback map and both clocks) is
unchanged, the next poll returns exactly what it would have without the tick,
and from a quiescent state (no unconsumed quote time) it returns no bars. -/
theorem c2_reject_nonpositive_lastprice (s : FeedState) (m : QuoteRecord)
    (now : Int) (h : m.lp.getD 0 ≤ 0) :
    processMessage s m now = s ∧
    (∀ (mapping : String → String) (now2 : Int),
      getNextBars mapping (processMessage s m now) now2 = getNextBars mapping s now2) ∧
    (s.lastUpdateTime = s.lastQuoteDateTime →
      ∀ (mapping : String → String) (now2 : Int),
        (getNextBars mapping (processMessage s m now) now2).2 = none) := by
  have h1 : processMessage s m now = s := by
    simp [processMessage, h]
  refine ⟨h1, fun mapping now2 => by rw [h1], fun hs mapping now2 => ?_⟩
  rw [h1]
  simp [getNextBars, hs]

/-- A published record carrying no last price. -/
def recNoLp : QuoteRecord :=
  { e := "NSE", tk := "1", lp := none, v := some 5, oi := none,
    ft := 10, ct := 10, volume := 0 }

/-- Witness for C2: dropping a no-last-price record leaves the fresh feed
state untouched and the next poll yields no bars. -/
theorem c2_reject_witness :
    processMessage initialFeed recNoLp 5 = initialFeed ∧
    (getNextBars (fun x => x) (processMessage initialFeed recNoLp 5) 7).2 = none :=
  ⟨(c2_reject_nonpositive_lastprice initialFeed recNoLp 5 (by decide)).1,
   (c2_reject_nonpositive_lastprice initialFeed recNoLp 5 (by decide)).2.2
     rfl (fun x => x) 7⟩

/-- A tick for instrument `NSE|1` carrying cumulative volume `x`. -/
def tickV (x : ℚ) : RawTick :=
  { e := "NSE", tk := "1", lp := some 100, v := some x, oi := none, ft := some 0 }

/-- Counterexample for C1: the code never clamps the derived volume.  The
first tick (cumulative volume 100) yields incrementalVolume 100, not 0, and a
subsequent tick with a smaller cumulative volume (50) yields the negative
incrementalVolume -50, contradicting both the clamped derivation and the
`incrementalVolume ≥ 0` invariant. -/
theorem c1_counterexample :
    (alookup "NSE|1"
        (onQuoteUpdate (onQuoteUpdate initialWSClient (tickV 100) 0) (tickV 50) 0).quotes).map
        QuoteRecord.volume = some (-50) ∧
    (alookup "NSE|1" (onQuoteUpdate initialWSClient (tickV 100) 0).quotes).map
        QuoteRecord.volume = some 100 := by
  have hk : ("NSE" ++ "|" ++ "1" : String) = "NSE|1" := by decide
  constructor <;>
    norm_num [onQuoteUpdate, mergedRecord, prevCumVolume, mergeTick, freshRecord,
      resolveFt, tickV, RawTick.key, initialWSClient, aupsert, alookup, ovr, hk]

/-- A per-instrument tick stream carrying cumulative volume `c i` at step `i`
(constant last price, no open interest, exchange time 0). -/
def volTick (e tk : String) (x : ℚ) : RawTick :=
  { e := e, tk := tk, lp := some 1, v := some x, oi := none, ft := some 0 }

/-- The publisher state after feeding ticks `0, 1, ..., n` of the stream into
an initially empty cache. -/
def applyTickSeq (e tk : String) (c : Nat → ℚ) (now : Int) : Nat → WSClientState
  | 0 => onQuoteUpdate initialWSClient (volTick e tk (c 0)) now
  | n + 1 => onQuoteUpdate (applyTickSeq e tk c now n) (volTick e tk (c (n + 1))) now

/-- The cache entry after step `n` of the stream. -/
def seqRecord (e tk : String) (c : Nat → ℚ) (now : Int) (n : Nat) : QuoteRecord :=
  { e := e, tk := tk, lp := some 1, v := some (c n), oi := none, ft := 0, ct := now,
    volume := if n = 0 then c 0 else c n - c (n - 1) }

theorem applyTickSeq_lookup (e tk : String) (c : Nat → ℚ) (now : Int) (n : Nat) :
    alookup (e ++ "|" ++ tk) (applyTickSeq e tk c now n).quotes =
      some (seqRecord e tk c now n) := by
  have hkey : ∀ x, (volTick e tk x).key = e ++ "|" ++ tk := fun _ => rfl
  induction n with
  | zero =>
    rw [applyTickSeq]
    rw [show e ++ "|" ++ tk = (volTick e tk (c 0)).key from rfl]
    rw [alookup_onQuoteUpdate_self]
    simp [mergedRecord, prevCumVolume, initialWSClient, freshRecord, resolveFt,
      volTick, seqRecord, RawTick.key]
  | succ n ih =>
    rw [applyTickSeq]
    rw [show e ++ "|" ++ tk = (volTick e tk (c (n + 1))).key from rfl]
    rw [alookup_onQuoteUpdate_self]
    simp [mergedRecord, prevCumVolume, hkey, ih, mergeTick, seqRecord, resolveFt,
      volTick, RawTick.key, ovr]

/-- C1 (amended): the derived `incrementalVolume` is
`cumulativeVolume(new) - storedCumulativeVolume` with the stored value taken
as 0 when absent and with no clamping: the first tick of a stream yields its
full cumulative volume (not 0) and a cumulative decrease yields a negative
value.  The aggregator stores the published `volume` unchanged and the
synthesized bar copies it, so for a per-instrument stream with non-decreasing
cumulative volume the bar volume at step `i ≥ 1` is
`cumulativeVolume[i] - cumulativeVolume[i-1] ≥ 0`, and at step 0 it is
`cumulativeVolume[0]`. -/
theorem c1_amended_incremental_volume :
    (∀ (s : WSClientState) (m : RawTick) (now : Int) (v : ℚ), m.v = some v →
      (alookup m.key (onQuoteUpdate s m now).quotes).map QuoteRecord.volume =
        some (v - prevCumVolume s m.key)) ∧
    (∀ (fs : FeedState) (p : QuoteRecord) (now : Int), 0 < p.lp.getD 0 →
      (alookup p.key (processMessage fs p now).latestQuotes).map QuoteRecord.volume =
        some p.volume) ∧
    (∀ (mapping : String → String) (r : QuoteRecord) (dt : Int),
      (mkBar mapping r dt).volume = r.volume) ∧
    (∀ (e tk : String) (c : Nat → ℚ) (now : Int), (∀ j, c j ≤ c (j + 1)) →
      ∀ n, (alookup (e ++ "|" ++ tk) (applyTickSeq e tk c now n).quotes).map
          QuoteRecord.volume =
          some (if n = 0 then c 0 else c n - c (n - 1)) ∧
        (∀ k, n = k + 1 → 0 ≤ c n - c (n - 1))) := by
  refine ⟨?_, ?_, ?_, ?_⟩
  · intro s m now v hv
    rw [alookup_onQuoteUpdate_self]
    simp [mergedRecord, hv]
  · intro fs p now hlp
    have hcond : ¬ p.lp.getD 0 ≤ 0 := not_le.mpr hlp
    rw [processMessage, if_neg hcond]
    cases hprev : alookup p.key fs.latestQuotes <;>
      simp [hprev, alookup_aupsert_self, mergedFeedRecord, mergeRecord]
  · intro mapping r dt
    rfl
  · intro e tk c now hmono n
    refine ⟨by rw [applyTickSeq_lookup]; rfl, ?_⟩
    rintro k rfl
    simpa using sub_nonneg.mpr (hmono k)

/-- Witness for C1 (amended): a concrete two-tick stream with cumulative
volumes 10 then 25 produces incremental volumes 10 and 15. -/
theorem c1_amended_witness :
    (alookup "NSE|1" (applyTickSeq "NSE" "1" (fun j => 10 + 15 * j) 0 1).quotes).map
        QuoteRecord.volume = some (if 1 = 0 then 10 + 15 * (0:ℚ) else
          (10 + 15 * (1:ℚ)) - (10 + 15 * ((1:ℚ) - 1))) ∧
    0 ≤ (10 + 15 * (1:ℚ)) - (10 + 15 * ((1:ℚ) - 1)) := by
  have h := (c1_amended_incremental_volume.2.2.2 "NSE" "1"
    (fun j => 10 + 15 * (j : ℚ)) 0 (fun j => by push_cast; norm_num) 1)
  constructor
  · have h1 := h.1
    simpa using h1
  · norm_num

/-- Re-merging the identical tick right away reproduces the stored record with
only the derived `volume` reset to 0 (the cumulative volume is unchanged). -/
theorem mergedRecord_self_again (s : WSClientState) (m : RawTick) (now : Int) :
    mergedRecord (onQuoteUpdate s m now) m now =
      { mergedRecord s m now with volume := 0 } := by
  rw [show mergedRecord (onQuoteUpdate s m now) m now =
      { (match alookup m.key (onQuoteUpdate s m now).quotes with
         | some r => mergeTick r m now (resolveFt m now)
         | none => freshRecord m now (resolveFt m now)) with
        volume :=
          match m.v with
          | some v => v - prevCumVolume (onQuoteUpdate s m now) m.key
          | none => 0 } from rfl]
  rw [alookup_onQuoteUpdate_self, prevCumVolume, alookup_onQuoteUpdate_self]
  cases h0 : alookup m.key s.quotes with
  | none =>
    cases hv : m.v <;> cases hlp : m.lp <;> cases hoi : m.oi <;>
      simp [mergedRecord, h0, mergeTick, freshRecord, hv, hlp, hoi, ovr]
  | some r0 =>
    cases hv : m.v <;> cases hlp : m.lp <;> cases hoi : m.oi <;>
      simp [mergedRecord, h0, mergeTick, hv, hlp, hoi, ovr]

/-- C5: applying the identical tick twice in immediate succession (same wall
clock) is idempotent on every stored field except the derived
`incrementalVolume`, which the second application sets to 0; every other
cache key and both publisher clocks are untouched by the repeat. -/
theorem c5_reapply_identical_tick (s : WSClientState) (m : RawTick) (now : Int) :
    onQuoteUpdate (onQuoteUpdate s m now) m now =
      { onQuoteUpdate s m now with
        quotes := aupsert m.key { mergedRecord s m now with volume := 0 }
          (onQuoteUpdate s m now).quotes } ∧
    (alookup m.key (onQuoteUpdate (onQuoteUpdate s m now) m now).quotes).map
        QuoteRecord.volume = some 0 ∧
    (∀ k, k ≠ m.key →
      alookup k (onQuoteUpdate (onQuoteUpdate s m now) m now).quotes =
        alookup k (onQuoteUpdate s m now).quotes) := by
  refine ⟨?_, ?_, ?_⟩
  · rw [show onQuoteUpdate (onQuoteUpdate s m now) m now =
        { quotes := aupsert m.key (mergedRecord (onQuoteUpdate s m now) m now)
            (onQuoteUpdate s m now).quotes,
          lastQuoteDateTime := some (resolveFt m now),
          lastReceivedDateTime := some now } from rfl]
    rw [mergedRecord_self_again]
    rfl
  · rw [show (onQuoteUpdate (onQuoteUpdate s m now) m now).quotes =
        aupsert m.key (mergedRecord (onQuoteUpdate s m now) m now)
          (onQuoteUpdate s m now).quotes from rfl]
    rw [alookup_aupsert_self, mergedRecord_self_again]
    rfl
  · intro k hk
    exact alookup_aupsert_other _ _ _ _ hk

/-- Witness for C5: re-applying a concrete tick yields incremental volume 0
and leaves an unrelated key's lookup unchanged. -/
theorem c5_reapply_witness :
    (alookup "NSE|1"
        (onQuoteUpdate (onQuoteUpdate initialWSClient (tickV 100) 0) (tickV 100) 0).quotes).map
        QuoteRecord.volume = some 0 ∧
    alookup "BSE|9"
        (onQuoteUpdate (onQuoteUpdate initialWSClient (tickV 100) 0) (tickV 100) 0).quotes =
      alookup "BSE|9" (onQuoteUpdate initialWSClient (tickV 100) 0).quotes :=
  ⟨(c5_reapply_identical_tick initialWSClient (tickV 100) 0).2.1,
   (c5_reapply_identical_tick initialWSClient (tickV 100) 0).2.2 "BSE|9" (by decide)⟩

theorem aupsert_length_of_alookup_none {β : Type} (k : String) (v : β)
    (l : List (String × β)) (h : alookup k l = none) :
    (aupsert k v l).length = l.length + 1 := by
  induction l with
  | nil => rfl
  | cons p rest ih =>
    obtain ⟨k₀, v₀⟩ := p
    rw [alookup_cons] at h
    by_cases h₀ : k₀ = k
    · rw [if_pos h₀] at h
      exact absurd h (by simp)
    · rw [if_neg h₀] at h
      rw [aupsert_cons, if_neg h₀]
      simp [ih h]

theorem filter_length_eq_iff {α : Type} (p : α → Bool) (l : List α) :
    (l.filter p).length = l.length ↔ ∀ a ∈ l, p a := by
  induction l with
  | nil => simp
  | cons a rest ih =>
    rw [List.filter_cons]
    by_cases h : p a
    · simp [h, ih]
    · simp [h]
      intro hlen
      have := List.length_filter_le p rest
      omega

/-- The dict comprehension over a duplicate-free instrument list has exactly
one entry per instrument that resolves. -/
theorem buildInstrumentToToken_length (tm : List (String × String)) :
    ∀ (instruments : List String), instruments.Nodup →
      ∀ acc : List (String × String), (∀ i ∈ instruments, alookup i acc = none) →
        (instruments.foldl
            (fun acc i =>
              match alookup i tm with
              | some t => aupsert i t acc
              | none => acc)
            acc).length =
          acc.length + (instruments.filter (fun i => (alookup i tm).isSome)).length := by
  intro instruments
  induction instruments with
  | nil =>
    intro _ acc _
    simp
  | cons i rest ih =>
    intro hnd acc hacc
    rw [List.nodup_cons] at hnd
    rw [List.foldl_cons]
    cases ht : alookup i tm with
    | none =>
      simp only [ht]
      rw [ih hnd.2 acc (fun j hj => hacc j (List.mem_cons_of_mem _ hj))]
      rw [List.filter_cons]
      simp [ht]
    | some t =>
      simp only [ht]
      have hlen := aupsert_length_of_alookup_none i t acc
        (hacc i (List.mem_cons_self _ _))
      rw [ih hnd.2 (aupsert i t acc) ?_]
      · rw [hlen, List.filter_cons]
        simp [ht]
        omega
      · intro j hj
        have hji : j ≠ i := fun h => hnd.1 (h ▸ hj)
        rw [alookup_aupsert_other _ _ _ _ hji]
        exact hacc j (List.mem_cons_of_mem _ hj)

/-- Counterexample for C9: with the duplicated request list `["A", "A"]` and a
mapping that resolves `"A"`, every requested instrument resolves to a token,
yet construction fails (`len(instruments) != len(dict)` since the dict
deduplicates). -/
theorem c9_counterexample :
    liveTradeFeedInitOk [("A", "TOK")] ["A", "A"] = false ∧
    ∀ i ∈ ["A", "A"], (alookup i [("A", "TOK")]).isSome := by
  constructor
  · decide
  · decide

/-- C9 (amended): construction fails iff the requested-instrument count
differs from the number of distinct requested instruments that resolve; in
particular, for a duplicate-free requested list, construction succeeds iff
every requested instrument resolves to a token. -/
theorem c9_amended_init_validation (tm : List (String × String))
    (instruments : List String) (hnd : instruments.Nodup) :
    liveTradeFeedInitOk tm instruments = true ↔
      ∀ i ∈ instruments, (alookup i tm).isSome := by
  have hbuild := buildInstrumentToToken_length tm instruments hnd [] (by simp)
  rw [show liveTradeFeedInitOk tm instruments =
      decide (instruments.length = (buildInstrumentToToken tm instruments).length)
      from rfl]
  unfold buildInstrumentToToken
  rw [hbuild]
  simp only [List.length_nil, Nat.zero_add, decide_eq_true_eq]
  constructor
  · intro h i hi
    exact (filter_length_eq_iff _ instruments).mp h.symm i hi
  · intro h
    exact ((filter_length_eq_iff _ instruments).mpr h).symm

/-- Witness for C9 (amended): a duplicate-free fully-resolving request list
constructs successfully. -/
theorem c9_amended_witness : liveTradeFeedInitOk [("A", "TOK")] ["A"] = true :=
  (c9_amended_init_validation [("A", "TOK")] ["A"] (by decide)).mpr (by decide)

/-- The polling loop succeeds iff one of its `n` one-second checks (starting
at second `t`) sees every pending subscription quoted. -/
theorem wsPollLoop_true_iff (keysAt : Nat → List String) (pending : List String) :
    ∀ (n t : Nat), wsPollLoop keysAt pending t n = true ↔
      ∃ i < n, pending.all (fun p => (keysAt (t + i)).contains p) = true := by
  intro n
  induction n with
  | zero =>
    intro t
    simp [wsPollLoop]
  | succ n ih =>
    intro t
    rw [wsPollLoop]
    by_cases h : pending.all (fun p => (keysAt t).contains p) = true
    · rw [if_pos h]
      constructor
      · intro _
        exact ⟨0, Nat.succ_pos n, by simpa using h⟩
      · intro _
        rfl
    · rw [if_neg h, ih (t + 1)]
      constructor
      · rintro ⟨i, hi, hall⟩
        exact ⟨i + 1, Nat.succ_lt_succ hi,
          by rwa [show t + (i + 1) = t + 1 + i from by omega]⟩
      · rintro ⟨i, hi, hall⟩
        cases i with
        | zero => exact absurd (by simpa using hall) h
        | succ j =>
          exact ⟨j, Nat.lt_of_succ_lt_succ hi,
            by rwa [show t + 1 + j = t + (j + 1) from by omega]⟩

/-- C4 (amended): `waitInitialized(timeout)` returns failure when the ready
event never fires or fires later than `timeout`; when the event fires after
`w ≤ timeout` seconds it polls at 1-second granularity for up to `timeout`
iterations — a fresh full `timeout` budget measured from the event, not the
remaining budget — returning success with the pending set cleared iff some
check within those `timeout` iterations sees every pending instrument quoted,
and failure with the pending set intact otherwise. -/
theorem c4_amended_waitInitialized (timeout : Nat) (openDelay : Option Nat)
    (keysAt : Nat → List String) (pending : List String) :
    (openDelay = none →
      waitInitialized timeout openDelay keysAt pending = (false, pending)) ∧
    (∀ w, openDelay = some w →
      (timeout < w →
        waitInitialized timeout openDelay keysAt pending = (false, pending)) ∧
      (w ≤ timeout →
        (waitInitialized timeout openDelay keysAt pending = (true, []) ↔
          ∃ i < timeout,
            pending.all (fun p => (keysAt (w + i)).contains p) = true) ∧
        ((¬ ∃ i < timeout,
            pending.all (fun p => (keysAt (w + i)).contains p) = true) →
          waitInitialized timeout openDelay keysAt pending = (false, pending)))) := by
  constructor
  · rintro rfl
    rfl
  · rintro w rfl
    constructor
    · intro hlt
      rw [waitInitialized, if_pos hlt]
    · intro hle
      have hnot : ¬ timeout < w := not_lt.mpr hle
      constructor
      · rw [waitInitialized, if_neg hnot]
        by_cases hpoll : wsPollLoop keysAt pending w timeout = true
        · rw [if_pos hpoll]
          exact Iff.intro (fun _ => (wsPollLoop_true_iff keysAt pending timeout w).mp hpoll)
            (fun _ => rfl)
        · rw [if_neg hpoll]
          constructor
          · intro hcontra
            exact absurd (congrArg Prod.fst hcontra) (by simp)
          · intro hex
            exact absurd ((wsPollLoop_true_iff keysAt pending timeout w).mpr hex) hpoll
      · intro hnex
        rw [waitInitialized, if_neg hnot,
          if_neg (fun hpoll =>
            hnex ((wsPollLoop_true_iff keysAt pending timeout w).mp hpoll))]

/-- Publisher cache keys over time for the C4 counterexample: the pending
instrument only gets its first quote at second 2. -/
def ceKeysAt (t : Nat) : List String := if 2 ≤ t then ["X"] else []

/-- Counterexample for C4: with `timeout = 2` and the ready event firing at
second 1, the remaining budget is 1 second, and the pending instrument is
quoted only at second 2 — after that remaining budget.  The claimed
remaining-budget-bounded polling (`waitInitializedBudget`) fails, but the code
polls for a full fresh `timeout` iterations and succeeds. -/
theorem c4_counterexample :
    waitInitialized 2 (some 1) ceKeysAt ["X"] = (true, []) ∧
    waitInitializedBudget 2 (some 1) ceKeysAt ["X"] = (false, ["X"]) := by
  constructor <;> decide

/-- Witness for C4 (amended): the event fires immediately and the instrument
is already quoted, so `waitInitialized` succeeds and clears the pending set. -/
theorem c4_amended_witness :
    waitInitialized 1 (some 0) (fun _ => ["X"]) ["X"] = (true, []) :=
  (((c4_amended_waitInitialized 1 (some 0) (fun _ => ["X"]) ["X"]).2 0 rfl).2
    (by decide)).1.mpr ⟨0, by decide, by decide⟩

theorem mem_akeys_foldl_aupsert {β : Type} (ps : List (String × β)) :
    ∀ (acc : List (String × β)) (k : String),
      k ∈ akeys (ps.foldl (fun a p => aupsert p.1 p.2 a) acc) ↔
        k ∈ akeys acc ∨ k ∈ akeys ps := by
  induction ps with
  | nil =>
    intro acc k
    simp
  | cons p rest ih =>
    intro acc k
    rw [List.foldl_cons, ih, akeys_aupsert_mem]
    simp only [akeys_cons, List.mem_cons]
    tauto

theorem mem_akeys_dictOf {β : Type} (ps : List (String × β)) (k : String) :
    k ∈ akeys (dictOf ps) ↔ k ∈ akeys ps := by
  rw [dictOf, mem_akeys_foldl_aupsert]
  simp

theorem akeys_dictOf_nodup {β : Type} (ps : List (String × β)) :
    (akeys (dictOf ps)).Nodup := by
  rw [dictOf]
  have aux : ∀ (qs acc : List (String × β)), (akeys acc).Nodup →
      (akeys (qs.foldl (fun a p => aupsert p.1 p.2 a) acc)).Nodup := by
    intro qs
    induction qs with
    | nil => intro acc h; simpa using h
    | cons p rest ih =>
      intro acc h
      rw [List.foldl_cons]
      exact ih _ (akeys_aupsert_nodup _ _ _ h)
  exact aux ps [] (by simp)

theorem instrumentOfRecord_fillOI (mapping : String → String) (s : FeedState)
    (r : QuoteRecord) :
    instrumentOfRecord mapping (fillOI s r) = instrumentOfRecord mapping r := by
  rw [fillOI]
  split <;> rfl

/-- C7: `getNextBars` returns no batch iff the aggregator's quote time has not
advanced past the one consumed by the previous batch; when it returns a
batch, the batch holds exactly one bar per instrument present in the cache
(each cache instrument appears, and no instrument is duplicated); from the
initial state (no tick ever received) it returns no batch. -/
theorem c7_getNextBars_gating (mapping : String → String) (s : FeedState) (now : Int) :
    ((getNextBars mapping s now).2 = none ↔ s.lastUpdateTime = s.lastQuoteDateTime) ∧
    (∀ bs, (getNextBars mapping s now).2 = some bs →
      (akeys bs).Nodup ∧
      ∀ inst, inst ∈ akeys bs ↔
        inst ∈ s.latestQuotes.map (fun kv => instrumentOfRecord mapping kv.2)) ∧
    (getNextBars mapping initialFeed now).2 = none := by
  refine ⟨?_, ?_, rfl⟩
  · by_cases h : s.lastUpdateTime = s.lastQuoteDateTime
    · rw [getNextBars, if_pos h]
      simp [h]
    · rw [getNextBars, if_neg h]
      simp [h]
  · intro bs hbs
    by_cases h : s.lastUpdateTime = s.lastQuoteDateTime
    · rw [getNextBars, if_pos h] at hbs
      exact absurd hbs (by simp)
    · rw [getNextBars, if_neg h] at hbs
      simp only [Option.some.injEq] at hbs
      subst hbs
      refine ⟨akeys_dictOf_nodup _, fun inst => ?_⟩
      rw [mem_akeys_dictOf]
      rw [show akeys ((s.latestQuotes.map (fun kv => (kv.1, fillOI s kv.2))).map
          (fun kv => (instrumentOfRecord mapping kv.2, mkBar mapping kv.2 now))) =
          (s.latestQuotes.map (fun kv => (kv.1, fillOI s kv.2))).map
            (fun kv => instrumentOfRecord mapping kv.2) from by
        rw [akeys, List.map_map]
        rfl]
      rw [List.map_map]
      have hfun : ((fun kv : String × QuoteRecord => instrumentOfRecord mapping kv.2) ∘
          (fun kv : String × QuoteRecord => (kv.1, fillOI s kv.2))) =
          fun kv : String × QuoteRecord => instrumentOfRecord mapping kv.2 :=
        funext fun kv => instrumentOfRecord_fillOI mapping s kv.2
      rw [hfun]

/-- A concrete cache entry for the C7 witness. -/
def recC7 : QuoteRecord :=
  { e := "NFO", tk := "1", lp := some 99, v := some 10, oi := some 120,
    ft := 1, ct := 1, volume := 10 }

/-- A feed state holding one quote whose time has not been consumed yet. -/
def feedC7 : FeedState :=
  { latestQuotes := [("NFO|1", recC7)], latestOIs := [("NFO|1", 120)],
    lastQuoteDateTime := some 1, lastReceivedDateTime := some 1,
    lastUpdateTime := none, nextBarsTime := none }

/-- Witness for C7: a pending quote time yields a batch; the initial state
yields none. -/
theorem c7_getNextBars_witness :
    (getNextBars (fun x => x) feedC7 5).2 ≠ none ∧
    (getNextBars (fun x => x) initialFeed 5).2 = none :=
  ⟨fun hnone =>
      absurd ((c7_getNextBars_gating (fun x => x) feedC7 5).1.mp hnone) (by decide),
    (c7_getNextBars_gating (fun x => x) feedC7 5).2.2⟩

theorem survivors_cons_none (resolver : String → Option OptionContract)
    (mapping : String → String) (expiry : Int) (ot : OptionType)
    (kv : String × QuoteRecord) (rest : List (String × QuoteRecord))
    (hres : resolver (mapping kv.1) = none) :
    survivors resolver mapping expiry ot (kv :: rest) =
      survivors resolver mapping expiry ot rest := by
  simp only [survivors, List.filterMap_cons, hres]

theorem survivors_cons_skip (resolver : String → Option OptionContract)
    (mapping : String → String) (expiry : Int) (ot : OptionType)
    (kv : String × QuoteRecord) (rest : List (String × QuoteRecord))
    (oc : OptionContract) (hres : resolver (mapping kv.1) = some oc)
    (hfil : ¬ (oc.expiry = expiry ∧ oc.type = optionTypeCode ot)) :
    survivors resolver mapping expiry ot (kv :: rest) =
      survivors resolver mapping expiry ot rest := by
  simp only [survivors, List.filterMap_cons, hres]
  rw [if_neg hfil]

theorem survivors_cons_keep (resolver : String → Option OptionContract)
    (mapping : String → String) (expiry : Int) (ot : OptionType)
    (kv : String × QuoteRecord) (rest : List (String × QuoteRecord))
    (oc : OptionContract) (hres : resolver (mapping kv.1) = some oc)
    (hfil : oc.expiry = expiry ∧ oc.type = optionTypeCode ot) :
    survivors resolver mapping expiry ot (kv :: rest) =
      (mapping kv.1, (kv.2).lp.getD 0) :: survivors resolver mapping expiry ot rest := by
  simp only [survivors, List.filterMap_cons, hres]
  rw [if_pos hfil]

/-- The source loop (fold with skips) equals the min-tracking loop over the
filtered survivor list. -/
theorem foldl_nearestStep (resolver : String → Option OptionContract)
    (mapping : String → String) (expiry : Int) (ot : OptionType) (premium : ℚ) :
    ∀ (quotes : List (String × QuoteRecord)) (best : Option (String × ℚ)),
      quotes.foldl (nearestStep resolver mapping expiry ot premium) best =
        nearestLoop premium best (survivors resolver mapping expiry ot quotes) := by
  intro quotes
  induction quotes with
  | nil =>
    intro best
    rfl
  | cons kv rest ih =>
    intro best
    rw [List.foldl_cons, ih]
    cases hres : resolver (mapping kv.1) with
    | none =>
      rw [survivors_cons_none resolver mapping expiry ot kv rest hres]
      rw [show nearestStep resolver mapping expiry ot premium best kv = best from by
        rw [nearestStep, hres]]
    | some oc =>
      by_cases hfil : oc.expiry = expiry ∧ oc.type = optionTypeCode ot
      · rw [survivors_cons_keep resolver mapping expiry ot kv rest oc hres hfil]
        cases best with
        | none =>
          rw [show nearestStep resolver mapping expiry ot premium none kv =
              some (mapping kv.1, (kv.2).lp.getD 0) from by
            simp only [nearestStep, hres]
            rw [if_pos hfil]]
          rfl
        | some b =>
          obtain ⟨j, q⟩ := b
          rw [show nearestStep resolver mapping expiry ot premium (some (j, q)) kv =
              (if |(kv.2).lp.getD 0 - premium| < |q - premium| then
                some (mapping kv.1, (kv.2).lp.getD 0)
              else some (j, q)) from by
            simp only [nearestStep, hres]
            rw [if_pos hfil]]
          rw [show nearestLoop premium (some (j, q))
              ((mapping kv.1, (kv.2).lp.getD 0) :: survivors resolver mapping expiry ot rest) =
              (if |(kv.2).lp.getD 0 - premium| < |q - premium| then
                nearestLoop premium (some (mapping kv.1, (kv.2).lp.getD 0))
                  (survivors resolver mapping expiry ot rest)
              else nearestLoop premium (some (j, q))
                  (survivors resolver mapping expiry ot rest)) from rfl]
          by_cases hcmp : |(kv.2).lp.getD 0 - premium| < |q - premium| <;>
            simp [hcmp]
      · rw [survivors_cons_skip resolver mapping expiry ot kv rest oc hres hfil]
        rw [show nearestStep resolver mapping expiry ot premium best kv = best from by
          simp only [nearestStep, hres]
          rw [if_neg hfil]]

/-- Scanning with strict-improvement updates keeps the first-encountered
minimizer: the result splits the candidate list into a strictly-worse prefix
and a no-better suffix. -/
theorem nearestLoop_first_min (premium : ℚ) :
    ∀ (l : List (String × ℚ)) (b : String × ℚ),
      ∃ pre post r, b :: l = pre ++ r :: post ∧
        nearestLoop premium (some b) l = some r ∧
        (∀ e ∈ pre, |r.2 - premium| < |e.2 - premium|) ∧
        (∀ e ∈ post, |r.2 - premium| ≤ |e.2 - premium|) := by
  intro l
  induction l with
  | nil =>
    intro b
    exact ⟨[], [], b, rfl, rfl, by simp, by simp⟩
  | cons x rest ih =>
    intro b
    obtain ⟨j, q⟩ := b
    obtain ⟨i, p⟩ := x
    rw [show nearestLoop premium (some (j, q)) ((i, p) :: rest) =
        (if |p - premium| < |q - premium| then nearestLoop premium (some (i, p)) rest
        else nearestLoop premium (some (j, q)) rest) from rfl]
    by_cases hcmp : |p - premium| < |q - premium|
    · rw [if_pos hcmp]
      obtain ⟨pre, post, r, hsplit, hloop, hpre, hpost⟩ := ih (i, p)
      refine ⟨(j, q) :: pre, post, r, ?_, hloop, ?_, hpost⟩
      · rw [List.cons_append, ← hsplit]
      · intro e he
        rcases List.mem_cons.mp he with rfl | he'
        · have hle : |r.2 - premium| ≤ |p - premium| := by
            cases pre with
            | nil =>
              rw [List.nil_append] at hsplit
              injection hsplit with h1 _
              rw [← h1]
            | cons y pre' =>
              rw [List.cons_append] at hsplit
              injection hsplit with h1 _
              have hy := hpre y (List.mem_cons_self _ _)
              rw [← h1] at hy
              exact le_of_lt hy
          exact lt_of_le_of_lt hle hcmp
        · exact hpre e he'
    · rw [if_neg hcmp]
      have hqp : |q - premium| ≤ |p - premium| := not_lt.mp hcmp
      obtain ⟨pre, post, r, hsplit, hloop, hpre, hpost⟩ := ih (j, q)
      cases pre with
      | nil =>
        rw [List.nil_append] at hsplit
        injection hsplit with h1 h2
        refine ⟨[], (i, p) :: post, r, ?_, hloop, by simp, ?_⟩
        · rw [List.nil_append, ← h1, ← h2]
        · intro e he
          rcases List.mem_cons.mp he with rfl | he'
          · rw [← h1]
            exact hqp
          · exact hpost e he'
      | cons y pre' =>
        rw [List.cons_append] at hsplit
        injection hsplit with h1 h2
        refine ⟨(j, q) :: (i, p) :: pre', post, r, ?_, hloop, ?_, hpost⟩
        · rw [List.cons_append, List.cons_append, ← h2]
        · intro e he
          have hrq : |r.2 - premium| < |q - premium| := by
            have hy := hpre y (List.mem_cons_self _ _)
            rw [← h1] at hy
            exact hy
          rcases List.mem_cons.mp he with rfl | he'
          · exact hrq
          · rcases List.mem_cons.mp he' with rfl | he''
            · exact lt_of_lt_of_le hrq hqp
            · exact hpre e (List.mem_cons_of_mem _ he'')

/-- C3: `findNearestPremiumOption(expiry, optionType, premium)` scans the full
quote cache; with no surviving entry it returns no match `(None, None)`; with
survivors it returns the instrument and price of the entry minimizing
`|quotePrice - premium|`, where every earlier-encountered survivor is strictly
farther (first-encountered wins ties) and every later one is no closer. -/
theorem c3_findNearestPremiumOption (resolver : String → Option OptionContract)
    (mapping : String → String) (s : FeedState) (expiry : Int) (ot : OptionType)
    (premium : ℚ) (t : Int) :
    (survivors resolver mapping expiry ot s.latestQuotes = [] →
      findNearestPremiumOption resolver mapping s expiry ot premium t = (none, none)) ∧
    (∀ x rest, survivors resolver mapping expiry ot s.latestQuotes = x :: rest →
      ∃ pre post r,
        survivors resolver mapping expiry ot s.latestQuotes = pre ++ r :: post ∧
        findNearestPremiumOption resolver mapping s expiry ot premium t =
          (some r.1, some r.2) ∧
        (∀ e ∈ pre, |r.2 - premium| < |e.2 - premium|) ∧
        (∀ e ∈ post, |r.2 - premium| ≤ |e.2 - premium|)) := by
  have hdef : findNearestPremiumOption resolver mapping s expiry ot premium t =
      (match nearestLoop premium none (survivors resolver mapping expiry ot s.latestQuotes) with
       | none => (none, none)
       | some (i, p) => (some i, some p)) := by
    rw [show findNearestPremiumOption resolver mapping s expiry ot premium t =
        (match s.latestQuotes.foldl (nearestStep resolver mapping expiry ot premium) none with
         | none => (none, none)
         | some (i, p) => (some i, some p)) from rfl]
    rw [foldl_nearestStep]
  constructor
  · intro hemp
    rw [hdef, hemp]
    rfl
  · intro x rest hsur
    obtain ⟨pre, post, r, hsplit, hloop, hpre, hpost⟩ :=
      nearestLoop_first_min premium rest x
    obtain ⟨ri, rp⟩ := r
    refine ⟨pre, post, (ri, rp), by rw [hsur, hsplit], ?_, hpre, hpost⟩
    rw [hdef, hsur]
    rw [show nearestLoop premium none (x :: rest) =
        nearestLoop premium (some x) rest from by
      obtain ⟨xi, xp⟩ := x
      rfl]
    rw [hloop]

/-- A cached option quote for the C3/C6 examples. -/
def recOpt (e tk : String) (price : ℚ) : QuoteRecord :=
  { e := e, tk := tk, lp := some price, v := none, oi := none,
    ft := 1, ct := 1, volume := 0 }

/-- A cache with call options A (price 98) and B (price 105) and put option C
(price 100), all at expiry 5. -/
def feedC3 : FeedState :=
  { latestQuotes :=
      [("NFO|1", recOpt "NFO" "1" 98), ("NFO|2", recOpt "NFO" "2" 105),
       ("NFO|3", recOpt "NFO" "3" 100)],
    latestOIs := [], lastQuoteDateTime := some 1, lastReceivedDateTime := some 1,
    lastUpdateTime := none, nextBarsTime := none }

/-- Token→instrument dict for the example cache. -/
def mappingC3 : String → String := fun tok =>
  if tok = "NFO|1" then "NFO|A" else if tok = "NFO|2" then "NFO|B" else "NFO|C"

/-- Option-contract resolver for the example instruments. -/
def resolverC3 : String → Option OptionContract := fun inst =>
  if inst = "NFO|A" then some { expiry := 5, type := "c" }
  else if inst = "NFO|B" then some { expiry := 5, type := "c" }
  else if inst = "NFO|C" then some { expiry := 5, type := "p" }
  else none

/-- Witness for C3: on the spec's example cache the search keeps the two
calls, returns the first minimizer, and concretely yields A at price 98
(distance 2 beats 5). -/
theorem c3_findNearest_witness :
    (∃ pre post r,
      survivors resolverC3 mappingC3 5 OptionType.CALL feedC3.latestQuotes =
        pre ++ r :: post ∧
      findNearestPremiumOption resolverC3 mappingC3 feedC3 5 OptionType.CALL 100 0 =
        (some r.1, some r.2) ∧
      (∀ e ∈ pre, |r.2 - (100:ℚ)| < |e.2 - 100|) ∧
      (∀ e ∈ post, |r.2 - (100:ℚ)| ≤ |e.2 - 100|)) ∧
    findNearestPremiumOption resolverC3 mappingC3 feedC3 5 OptionType.CALL 100 0 =
      (some "NFO|A", some 98) := by
  constructor
  · exact (c3_findNearestPremiumOption resolverC3 mappingC3 feedC3 5
      OptionType.CALL 100 0).2 ("NFO|A", 98) [("NFO|B", 105)] (by decide)
  · have hs : survivors resolverC3 mappingC3 5 OptionType.CALL feedC3.latestQuotes =
        [("NFO|A", (98:ℚ)), ("NFO|B", 105)] := by decide
    rw [show findNearestPremiumOption resolverC3 mappingC3 feedC3 5 OptionType.CALL 100 0 =
        (match nearestLoop 100 none
            (survivors resolverC3 mappingC3 5 OptionType.CALL feedC3.latestQuotes) with
         | none => (none, none)
         | some (i, p) => (some i, some p)) from by
      rw [show findNearestPremiumOption resolverC3 mappingC3 feedC3 5 OptionType.CALL 100 0 =
          (match feedC3.latestQuotes.foldl
              (nearestStep resolverC3 mappingC3 5 OptionType.CALL 100) none with
           | none => (none, none)
           | some (i, p) => (some i, some p)) from rfl]
      rw [foldl_nearestStep]]
    rw [hs]
    rw [show nearestLoop 100 none [("NFO|A", (98:ℚ)), ("NFO|B", 105)] =
        (if |(105:ℚ) - 100| < |(98:ℚ) - 100| then some ("NFO|B", (105:ℚ))
         else some ("NFO|A", (98:ℚ))) from rfl]
    rw [if_neg (by norm_num : ¬ |(105:ℚ) - 100| < |(98:ℚ) - 100|)]

theorem alookup_foldl_aupsert_unique {β : Type} (p₀ : String × β) :
    ∀ (ps acc : List (String × β)),
      (∀ p ∈ ps, p.1 = p₀.1 → p.2 = p₀.2) →
      (p₀ ∈ ps ∨ alookup p₀.1 acc = some p₀.2) →
      alookup p₀.1 (ps.foldl (fun a p => aupsert p.1 p.2 a) acc) = some p₀.2 := by
  intro ps
  induction ps with
  | nil =>
    intro acc _ h
    rcases h with h | h
    · simp at h
    · simpa using h
  | cons p rest ih =>
    intro acc huniq hmem
    rw [List.foldl_cons]
    apply ih
    · exact fun x hx => huniq x (List.mem_cons_of_mem _ hx)
    · rcases hmem with hmem | hacc
      · rcases List.mem_cons.mp hmem with rfl | hrest
        · exact Or.inr (alookup_aupsert_self _ _ _)
        · exact Or.inl hrest
      · by_cases hk : p.1 = p₀.1
        · have hv : p.2 = p₀.2 := huniq p (List.mem_cons_self _ _) hk
          rw [← hk, ← hv]
          exact Or.inr (alookup_aupsert_self _ _ _)
        · refine Or.inr ?_
          rw [alookup_aupsert_other _ _ _ _ (fun h => hk h.symm)]
          exact hacc

/-- When every entry of the input sharing a key carries the same value, that
value survives the dict comprehension. -/
theorem alookup_dictOf_unique {β : Type} (p₀ : String × β) (ps : List (String × β))
    (hmem : p₀ ∈ ps) (huniq : ∀ p ∈ ps, p.1 = p₀.1 → p.2 = p₀.2) :
    alookup p₀.1 (dictOf ps) = some p₀.2 :=
  alookup_foldl_aupsert_unique p₀ ps [] huniq (Or.inl hmem)

/-- C6: if the latest merged tick for an instrument lacks open interest while
an earlier tick carried `oi = v`, the next produced batch reports Open
Interest `v` for that instrument (via field retention in the merge, and via
the `latestOIs` fallback map when `v` is falsy).  Hypotheses: both ticks pass
the positive-last-price gate, the cache keys are a well-formed dict, no other
cache entry renders the same instrument name, and the quote time is
unconsumed so the poll produces a batch. -/
theorem c6_open_interest_fallback (mapping : String → String) (s : FeedState)
    (m1 m2 : QuoteRecord) (n1 n2 now : Int) (v : ℚ)
    (he : m2.e = m1.e) (htk : m2.tk = m1.tk)
    (hoi1 : m1.oi = some v) (hoi2 : m2.oi = none)
    (hlp1 : 0 < m1.lp.getD 0) (hlp2 : 0 < m2.lp.getD 0)
    (hnd : (akeys s.latestQuotes).Nodup)
    (hprod : s.lastUpdateTime ≠ some m2.ft)
    (huniq : ∀ kv ∈ s.latestQuotes, kv.1 ≠ m2.key →
      instrumentOfRecord mapping kv.2 ≠ instrumentOfRecord mapping m2) :
    ∃ bs b,
      (getNextBars mapping (processMessage (processMessage s m1 n1) m2 n2) now).2 =
        some bs ∧
      alookup (instrumentOfRecord mapping m2) bs = some b ∧
      b.openInterest = v := by
  have hc1 : ¬ m1.lp.getD 0 ≤ 0 := not_le.mpr hlp1
  have hc2 : ¬ m2.lp.getD 0 ≤ 0 := not_le.mpr hlp2
  have hk12 : m1.key = m2.key := by
    rw [QuoteRecord.key, QuoteRecord.key, he, htk]
  -- step 1
  have hs1 : processMessage s m1 n1 =
      { s with
        latestQuotes := aupsert m1.key (mergedFeedRecord s m1) s.latestQuotes,
        latestOIs := aupsert m1.key v s.latestOIs,
        lastQuoteDateTime := some m1.ft,
        lastReceivedDateTime := some n1 } := by
    rw [processMessage, if_neg hc1]
    rw [show (match m1.oi with
        | some x => aupsert m1.key x s.latestOIs
        | none => s.latestOIs) = aupsert m1.key v s.latestOIs from by rw [hoi1]]
  have hr1oi : (mergedFeedRecord s m1).oi = some v := by
    rw [mergedFeedRecord]
    cases alookup m1.key s.latestQuotes <;> simp [mergeRecord, hoi1, ovr]
  -- step 2
  have hlook1 : alookup m2.key (processMessage s m1 n1).latestQuotes =
      some (mergedFeedRecord s m1) := by
    rw [hs1]
    rw [show (({ s with
        latestQuotes := aupsert m1.key (mergedFeedRecord s m1) s.latestQuotes,
        latestOIs := aupsert m1.key v s.latestOIs,
        lastQuoteDateTime := some m1.ft,
        lastReceivedDateTime := some n1 } : FeedState)).latestQuotes =
        aupsert m1.key (mergedFeedRecord s m1) s.latestQuotes from rfl]
    rw [← hk12]
    exact alookup_aupsert_self _ _ _
  have hmerged2 : mergedFeedRecord (processMessage s m1 n1) m2 =
      mergeRecord (mergedFeedRecord s m1) m2 := by
    rw [mergedFeedRecord, hlook1]
  have hr2oi : (mergedFeedRecord (processMessage s m1 n1) m2).oi = some v := by
    rw [hmerged2]
    rw [show (mergeRecord (mergedFeedRecord s m1) m2).oi =
        ovr m2.oi (mergedFeedRecord s m1).oi from rfl]
    rw [hoi2, ovr_none, hr1oi]
  have hr2e : (mergedFeedRecord (processMessage s m1 n1) m2).e = m2.e := by
    rw [hmerged2]
    rfl
  have hr2tk : (mergedFeedRecord (processMessage s m1 n1) m2).tk = m2.tk := by
    rw [hmerged2]
    rfl
  have hs2 : processMessage (processMessage s m1 n1) m2 n2 =
      { processMessage s m1 n1 with
        latestQuotes := aupsert m2.key (mergedFeedRecord (processMessage s m1 n1) m2)
          (processMessage s m1 n1).latestQuotes,
        lastQuoteDateTime := some m2.ft,
        lastReceivedDateTime := some n2 } := by
    rw [processMessage, if_neg hc2]
    rw [show (match m2.oi with
        | some x => aupsert m2.key x (processMessage s m1 n1).latestOIs
        | none => (processMessage s m1 n1).latestOIs) =
        (processMessage s m1 n1).latestOIs from by rw [hoi2]]
  -- projections of the final state
  have hq2 : (processMessage (processMessage s m1 n1) m2 n2).latestQuotes =
      aupsert m2.key (mergedFeedRecord (processMessage s m1 n1) m2)
        (aupsert m1.key (mergedFeedRecord s m1) s.latestQuotes) := by
    rw [hs2, hs1]
  have hois2 : (processMessage (processMessage s m1 n1) m2 n2).latestOIs =
      aupsert m1.key v s.latestOIs := by
    rw [hs2, hs1]
  have hlast2 : (processMessage (processMessage s m1 n1) m2 n2).lastQuoteDateTime =
      some m2.ft := by
    rw [hs2]
  have hupd2 : (processMessage (processMessage s m1 n1) m2 n2).lastUpdateTime =
      s.lastUpdateTime := by
    rw [hs2, hs1]
  have hne : (processMessage (processMessage s m1 n1) m2 n2).lastUpdateTime ≠
      (processMessage (processMessage s m1 n1) m2 n2).lastQuoteDateTime := by
    rw [hupd2, hlast2]
    exact hprod
  set s2 := processMessage (processMessage s m1 n1) m2 n2 with hs2def
  set r2 := mergedFeedRecord (processMessage s m1 n1) m2 with hr2def
  have hbars : (getNextBars mapping s2 now).2 =
      some (dictOf ((s2.latestQuotes.map (fun kv => (kv.1, fillOI s2 kv.2))).map
        (fun kv => (instrumentOfRecord mapping kv.2, mkBar mapping kv.2 now)))) := by
    rw [getNextBars, if_neg hne]
  have hinstr : instrumentOfRecord mapping (fillOI s2 r2) =
      instrumentOfRecord mapping m2 := by
    rw [instrumentOfRecord_fillOI]
    rw [instrumentOfRecord, instrumentOfRecord, hr2e, hr2tk]
  have hmemQ : (m2.key, r2) ∈ s2.latestQuotes :=
    mem_of_alookup_eq_some (by rw [hq2]; exact alookup_aupsert_self _ _ _)
  have hmemF : (m2.key, fillOI s2 r2) ∈
      s2.latestQuotes.map (fun kv => (kv.1, fillOI s2 kv.2)) := by
    have := List.mem_map_of_mem (fun kv : String × QuoteRecord =>
      (kv.1, fillOI s2 kv.2)) hmemQ
    simpa using this
  have hmemP : (instrumentOfRecord mapping m2, mkBar mapping (fillOI s2 r2) now) ∈
      (s2.latestQuotes.map (fun kv => (kv.1, fillOI s2 kv.2))).map
        (fun kv => (instrumentOfRecord mapping kv.2, mkBar mapping kv.2 now)) := by
    have := List.mem_map_of_mem (fun kv : String × QuoteRecord =>
      (instrumentOfRecord mapping kv.2, mkBar mapping kv.2 now)) hmemF
    simpa [hinstr] using this
  have hnd2 : (akeys s2.latestQuotes).Nodup := by
    rw [hq2]
    exact akeys_aupsert_nodup _ _ _ (akeys_aupsert_nodup _ _ _ hnd)
  have huniqP : ∀ p ∈ (s2.latestQuotes.map (fun kv => (kv.1, fillOI s2 kv.2))).map
      (fun kv => (instrumentOfRecord mapping kv.2, mkBar mapping kv.2 now)),
      p.1 = instrumentOfRecord mapping m2 →
      p.2 = mkBar mapping (fillOI s2 r2) now := by
    intro p hp hpk
    obtain ⟨kv', hkv', rfl⟩ := List.mem_map.mp hp
    obtain ⟨kv, hkv, rfl⟩ := List.mem_map.mp hkv'
    simp only at hpk ⊢
    rw [instrumentOfRecord_fillOI] at hpk
    have hkey : kv.1 = m2.key := by
      by_contra hne'
      have hkvs : kv ∈ s.latestQuotes := by
        have hkv2 := hkv
        rw [hq2] at hkv2
        rcases mem_aupsert hkv2 with h | h
        · exact absurd (congrArg Prod.fst h) hne'
        · rcases mem_aupsert h with h' | h'
          · exact absurd ((congrArg Prod.fst h').trans hk12) hne'
          · exact h'
      exact huniq kv hkvs hne' hpk
    have hv2 : kv.2 = r2 := by
      have hl := alookup_eq_of_mem_nodup hnd2
        (show (kv.1, kv.2) ∈ s2.latestQuotes from by simpa using hkv)
      rw [hkey] at hl
      rw [hq2, alookup_aupsert_self] at hl
      injection hl with hl
      exact hl.symm
    rw [hv2]
  have hlookupBar := alookup_dictOf_unique
    (instrumentOfRecord mapping m2, mkBar mapping (fillOI s2 r2) now)
    ((s2.latestQuotes.map (fun kv => (kv.1, fillOI s2 kv.2))).map
      (fun kv => (instrumentOfRecord mapping kv.2, mkBar mapping kv.2 now)))
    hmemP huniqP
  have hr2key : r2.key = m2.key := by
    rw [QuoteRecord.key, QuoteRecord.key, hr2e, hr2tk]
  have hoibar : (mkBar mapping (fillOI s2 r2) now).openInterest = v := by
    by_cases hv : v = 0
    · have hfill : fillOI s2 r2 =
          { r2 with oi := some (alookupD m2.key s2.latestOIs 0) } := by
        rw [fillOI, hr2key, if_pos]
        rw [hr2oi, hv]
        rfl
      rw [show (mkBar mapping (fillOI s2 r2) now).openInterest =
          (fillOI s2 r2).oi.getD 0 from rfl]
      rw [hfill]
      rw [show ({ r2 with oi := some (alookupD m2.key s2.latestOIs 0) } : QuoteRecord).oi =
          some (alookupD m2.key s2.latestOIs 0) from rfl]
      rw [Option.getD_some, alookupD, hois2, ← hk12, alookup_aupsert_self,
        Option.getD_some, hv]
    · have hfill : fillOI s2 r2 = r2 := by
        rw [fillOI, if_neg]
        rw [hr2oi]
        simpa using hv
      rw [show (mkBar mapping (fillOI s2 r2) now).openInterest =
          (fillOI s2 r2).oi.getD 0 from rfl]
      rw [hfill, hr2oi, Option.getD_some]
  exact ⟨_, _, hbars, hlookupBar, hoibar⟩

/-- First tick of the C6 witness: carries `oi = 120`. -/
def m1C6 : QuoteRecord :=
  { e := "NFO", tk := "7", lp := some 100, v := some 10, oi := some 120,
    ft := 1, ct := 1, volume := 10 }

/-- Second tick of the C6 witness: same instrument, no `oi`. -/
def m2C6 : QuoteRecord :=
  { e := "NFO", tk := "7", lp := some 101, v := some 12, oi := none,
    ft := 2, ct := 2, volume := 2 }

/-- Witness for C6: after an `oi = 120` tick followed by an `oi`-less tick,
the produced batch reports Open Interest 120 for the instrument. -/
theorem c6_open_interest_witness :
    ∃ bs b,
      (getNextBars (fun x => x)
          (processMessage (processMessage initialFeed m1C6 1) m2C6 2) 5).2 = some bs ∧
      alookup (instrumentOfRecord (fun x => x) m2C6) bs = some b ∧
      b.openInterest = 120 :=
  c6_open_interest_fallback (fun x => x) initialFeed m1C6 m2C6 1 2 5 120
    rfl rfl rfl rfl (by decide) (by decide) (by decide) (by decide)
    (by simp [initialFeed])

end PyAlgoMate
